import Mathlib

/-!
MuchToDo: the username cache warmer and the route table.

A shallow embedding of `preloadUsernamesIntoCache` (cmd/api/main.go) and of
`RegisterRoutes` (internal/routes/routes.go) together with `setupRouter`.

The warmer talks to two collaborators, the cache service and the user
collection.  Every call it makes to either of them is recorded, in order, in a
trace of `Event`s; the cache is threaded through as an explicit state.
-/

namespace MuchToDo

/-! ## Values shared by the warmer -/

/-- A Go `error` value, identified by its message. -/
structure GoError where
  msg : String
deriving DecidableEq, Repr

/-- The values the warmer stores through `interface{}`: the bool marker `true`
and the string `"true"` of the sentinel. -/
inductive Value where
  | bool (b : Bool)
  | str (s : String)
deriving DecidableEq, Repr

/-- A Go `map[string]interface{}`, kept as an association list whose keys are
pairwise distinct; `len` is the length of the list. -/
abbrev GoMap := List (String × Value)

/-- The assignment `m[k] = v`: overwrite the entry of `k` when there is one,
add a new entry otherwise. -/
def GoMap.assign : GoMap → String → Value → GoMap
  | [], k, v => [(k, v)]
  | (k0, v0) :: rest, k, v =>
    if k0 = k then (k, v) :: rest else (k0, v0) :: GoMap.assign rest k v

/-- The key set of a map. -/
def GoMap.keys (m : GoMap) : List String := m.map Prod.fst

/-- The constant `time.Second`, in nanoseconds. -/
def Second : Nat := 1000000000

/-- The constant `time.Hour`, in nanoseconds. -/
def Hour : Nat := 3600 * Second

/-- The constant `usernameCacheSentinelKey = "username_cache_initialized"`. -/
def usernameCacheSentinelKey : String := "username_cache_initialized"

/-- The constant `usernameCacheTTL = 24 * time.Hour`, in nanoseconds. -/
def usernameCacheTTL : Nat := 24 * Hour

/-- The key computed by `fmt.Sprintf("username-taken:%s", result.Username)`. -/
def cacheKey (username : String) : String := "username-taken:" ++ username

/-- The fields of `config.Config` that the warmer reads. -/
structure Config where
  EnableCache : Bool
  DBName : String
deriving DecidableEq, Repr

/-! ## The collaborators -/

/-- Modelled from the spec: the `cache.Cache` interface of internal/cache, which
the warmer only calls.  `Get` reads the value under a key or reports an error
(a miss or an unavailable store) and leaves the store as it is; `Set` and
`SetMany` report an error or not and may change the store either way. -/
structure Cache (σ : Type) where
  Get : σ → String → Except GoError Value
  Set : σ → String → Value → Nat → Option GoError × σ
  SetMany : σ → GoMap → Nat → Option GoError × σ

/-- What `cursor.Decode(&result)` makes of one document: the `Username` field
of `result`, or an error. -/
inductive Record where
  | ok (Username : String)
  | undecodable (err : GoError)
deriving DecidableEq, Repr

/-- A cursor of the driver seen from the loop: the documents for which `Next`
returned true, and what `Err` reports once `Next` has returned false. -/
structure Cursor where
  docs : List Record
  err : Option GoError
deriving DecidableEq, Repr

/-- The user collection together with the outcome of one scan of it: the stored
documents in cursor order, the error of `Find` if it fails, and, if the cursor
fails on the way, the number of documents it had delivered and its error. -/
structure Database where
  users : List Record
  findErr : Option GoError
  cursorErr : Option (Nat × GoError)
deriving DecidableEq, Repr

/-- The call `userCollection.Find(ctx, bson.D{}, opts)`: an error, or a cursor. A
cursor that does not fail delivers every stored document. -/
def Database.Find (db : Database) : Except GoError Cursor :=
  match db.findErr with
  | some e => .error e
  | none =>
    match db.cursorErr with
    | none => .ok { docs := db.users, err := none }
    | some (n, e) => .ok { docs := db.users.take n, err := some e }

/-- One observable step of the warmer, in program order. -/
inductive Event where
  | Log (line : String)
  | Get (key : String)
  | Find (dbName : String) (collection : String) (timeout : Nat)
  | SetMany (items : GoMap) (ttl : Nat)
  | Set (key : String) (value : Value) (ttl : Nat)
deriving DecidableEq, Repr

/-! ## The warmer -/

/-- The body of `for cursor.Next(ctx)`: the staged map and the lines logged
after the given documents. -/
def scanLoop : List Record → GoMap → List Event → GoMap × List Event
  | [], m, tr => (m, tr)
  | Record.undecodable e :: rest, m, tr =>
    scanLoop rest m (tr ++ [Event.Log ("Error decoding username during preload: " ++ e.msg)])
  | Record.ok u :: rest, m, tr =>
    if u ≠ "" then scanLoop rest (m.assign (cacheKey u) (Value.bool true)) tr
    else scanLoop rest m tr

/-- The function `preloadUsernamesIntoCache`: the cache it leaves and the trace
of its calls. -/
def preloadUsernamesIntoCache {σ : Type} (db : Database) (cacheSvc : Cache σ)
    (cfg : Config) (s : σ) : σ × List Event :=
  if !cfg.EnableCache then
    (s, [Event.Log "Caching is disabled. Skipping username preloading."])
  else
    match cacheSvc.Get s usernameCacheSentinelKey with
    | .ok _ =>
      (s, [Event.Get usernameCacheSentinelKey,
           Event.Log "Username cache already initialized. Skipping preload."])
    | .error _ =>
      let tr0 := [Event.Get usernameCacheSentinelKey,
                  Event.Log "Preloading usernames into cache...",
                  Event.Find cfg.DBName "users" (15 * Second)]
      match db.Find with
      | .error e =>
        (s, tr0 ++ [Event.Log ("Error querying for usernames to preload: " ++ e.msg)])
      | .ok cursor =>
        let (usernamesToCache, tr1) := scanLoop cursor.docs [] tr0
        match cursor.err with
        | some e =>
          (s, tr1 ++ [Event.Log ("Cursor error during username preload: " ++ e.msg)])
        | none =>
          if usernamesToCache.length > 0 then
            match cacheSvc.SetMany s usernamesToCache usernameCacheTTL with
            | (some e, s1) =>
              (s1, tr1 ++ [Event.SetMany usernamesToCache usernameCacheTTL,
                           Event.Log ("Error preloading usernames to cache: " ++ e.msg)])
            | (none, s1) =>
              let (_, s2) := cacheSvc.Set s1 usernameCacheSentinelKey (Value.str "true")
                usernameCacheTTL
              (s2, tr1 ++ [Event.SetMany usernamesToCache usernameCacheTTL,
                           Event.Set usernameCacheSentinelKey (Value.str "true")
                             usernameCacheTTL,
                           Event.Log ("Successfully preloaded " ++
                             toString usernamesToCache.length ++
                             " usernames into the cache.")])
          else
            (s, tr1 ++ [Event.Log "No usernames found to preload."])

/-! ## Vocabulary for the statements about the warmer -/

/-- The usernames the loop stages: those of the documents that decode to a
non-empty `Username`, in cursor order. -/
def stagedUsernames : List Record → List String
  | [] => []
  | Record.ok u :: rest => if u ≠ "" then u :: stagedUsernames rest else stagedUsernames rest
  | Record.undecodable _ :: rest => stagedUsernames rest

/-- The map `usernamesToCache` that the loop leaves, from the map it starts
with. -/
def stageAll (docs : List Record) (m : GoMap) : GoMap := (scanLoop docs m []).1

/-- The lines the loop logs. -/
def decodeLogs (docs : List Record) : List Event := (scanLoop docs [] []).2

/-- The calls made up to and including the opening of the scan. -/
def scanOpening (cfg : Config) : List Event :=
  [Event.Get usernameCacheSentinelKey,
   Event.Log "Preloading usernames into cache...",
   Event.Find cfg.DBName "users" (15 * Second)]

/-- The event is a call to a collaborator, not a log line. -/
def Event.isCall : Event → Bool
  | Event.Log _ => false
  | _ => true

/-- The event is a scan of the collection. -/
def Event.isScan : Event → Bool
  | Event.Find _ _ _ => true
  | _ => false

/-- The event is a write to the cache. -/
def Event.isWrite : Event → Bool
  | Event.SetMany _ _ => true
  | Event.Set _ _ _ => true
  | _ => false

/-- Event `a` occurs in the trace strictly before event `b`. -/
def Precedes (a b : Event) (tr : List Event) : Prop :=
  ∃ l1 l2 l3, tr = l1 ++ a :: (l2 ++ b :: l3)

/-! ## Concrete collaborators -/

/-- Modelled from the spec: an in-process Cache Store (internal/cache is not
part of the sources), a clock and the live entries with the time each one
expires. -/
structure MemStore where
  now : Nat
  entries : List (String × Value × Nat)
deriving DecidableEq, Repr

/-- Modelled from the spec: `get(key)` of the Cache Store, the current value if
present and unexpired, a miss otherwise. -/
def MemStore.get (s : MemStore) (key : String) : Except GoError Value :=
  match s.entries.find? (fun e => e.1 = key) with
  | some (_, v, expiresAt) => if s.now < expiresAt then .ok v else .error ⟨"cache miss"⟩
  | none => .error ⟨"cache miss"⟩

/-- Modelled from the spec: `set(key, value, ttl)` of the Cache Store, which
inserts or overwrites; the entry is readable until `ttl` has elapsed. -/
def MemStore.set (s : MemStore) (key : String) (v : Value) (ttl : Nat) : MemStore :=
  { s with entries := (key, v, s.now + ttl) :: s.entries.filter (fun e => e.1 ≠ key) }

/-- Modelled from the spec: `setMany(mapping, ttl)` of the Cache Store, all
entries with the same TTL. -/
def MemStore.setMany (s : MemStore) (items : GoMap) (ttl : Nat) : MemStore :=
  items.foldl (fun acc p => acc.set p.1 p.2 ttl) s

/-- Time passes in the store. -/
def MemStore.elapse (s : MemStore) (d : Nat) : MemStore := { s with now := s.now + d }

/-- Modelled from the spec: the in-process Cache Store as a `Cache`; its writes
never fail. -/
def memCache : Cache MemStore where
  Get := MemStore.get
  Set := fun s k v ttl => (none, s.set k v ttl)
  SetMany := fun s items ttl => (none, s.setMany items ttl)

/-- Modelled from the spec: a Cache Store that is unavailable, every call
reports so. -/
def downCache : Cache Unit where
  Get := fun _ _ => .error ⟨"cache unavailable"⟩
  Set := fun _ _ _ _ => (some ⟨"cache unavailable"⟩, ())
  SetMany := fun _ _ _ => (some ⟨"cache unavailable"⟩, ())

/-- An empty store at time zero. -/
def coldStore : MemStore := { now := 0, entries := [] }

/-- A configuration with caching enabled. -/
def cfgOn : Config := { EnableCache := true, DBName := "much_todo_db" }

/-- A configuration with caching disabled. -/
def cfgOff : Config := { EnableCache := false, DBName := "much_todo_db" }

/-- A collection with the usernames alice and bob (bob twice), a document
without a username and one that does not decode; the scan succeeds. -/
def dbAliceBob : Database :=
  { users := [Record.ok "alice", Record.ok "", Record.ok "bob",
              Record.undecodable ⟨"cannot decode"⟩, Record.ok "bob"],
    findErr := none, cursorErr := none }

/-- The collection of `dbAliceBob` with a cursor that fails after three
documents. -/
def dbCursorFails : Database :=
  { dbAliceBob with cursorErr := some (3, ⟨"context deadline exceeded"⟩) }

/-- The collection of `dbAliceBob` with a `Find` that fails. -/
def dbFindFails : Database :=
  { dbAliceBob with findErr := some ⟨"server selection error"⟩ }

/-! ## The router -/

/-- The handler functions that occur in the route table, by name. -/
inductive HandlerFunc where
  | Logger | Recovery
  | AuthMiddleware
  | CheckHealth | SwaggerHandler
  | Register | Login | Logout | CheckUsernameAvailability
  | GetCurrentUser | UpdateUser | ChangePassword | DeleteUser
  | CreateTodo | GetAllTodos | GetTodoByID | UpdateTodo | DeleteTodo
  | Ping | Welcome | NotFound
deriving DecidableEq, Repr

/-- One entry of the route table: what `addRoute` receives. -/
structure Route where
  method : String
  path : String
  handlers : List HandlerFunc
deriving DecidableEq, Repr

/-- The struct `gin.RouterGroup`: the middleware chain and the base path. -/
structure RouterGroup where
  Handlers : List HandlerFunc
  basePath : String
deriving DecidableEq, Repr

/-- The struct `gin.Engine`: its own router group, the routes added so far in
order, and the handlers of `NoRoute`. -/
structure Engine where
  group : RouterGroup
  routes : List Route
  noRoute : List HandlerFunc
deriving DecidableEq, Repr

/-- The elements of a path between slashes. -/
def splitSlash : List Char → List (List Char)
  | [] => [[]]
  | c :: cs =>
    if c = '/' then [] :: splitSlash cs
    else
      match splitSlash cs with
      | [] => [[c]]
      | seg :: segs => (c :: seg) :: segs

/-- The element stack of `path.Clean`, kept in reverse: empty and `.` elements
are dropped, `..` removes the element before it, or is dropped at the root. -/
def cleanSegs (rooted : Bool) : List (List Char) → List (List Char) → List (List Char)
  | [], acc => acc
  | seg :: rest, acc =>
    if seg = [] ∨ seg = ['.'] then cleanSegs rooted rest acc
    else if seg = ['.', '.'] then
      match acc with
      | [] => if rooted then cleanSegs rooted rest [] else cleanSegs rooted rest [seg]
      | top :: below =>
        if top = ['.', '.'] then cleanSegs rooted rest (seg :: acc)
        else cleanSegs rooted rest below
    else cleanSegs rooted rest (seg :: acc)

/-- The function `path.Clean` of the Go standard library. -/
def pathClean (p : String) : String :=
  if p = "" then "."
  else
    let rooted := p.data.head? = some '/'
    let segs := (cleanSegs rooted (splitSlash p.data) []).reverse
    let body := String.mk (List.intercalate ['/'] segs)
    let out := (if rooted then "/" else "") ++ body
    if out = "" then "." else out

/-- The function `path.Join` for two elements. -/
def pathJoin (a b : String) : String :=
  if a = "" ∧ b = "" then ""
  else if a = "" then pathClean b
  else if b = "" then pathClean a
  else pathClean (a ++ "/" ++ b)

/-- The function `lastChar` of gin. -/
def lastChar (s : String) : Option Char := s.data.getLast?

/-- The function `joinPaths` of gin. -/
def joinPaths (absolutePath relativePath : String) : String :=
  if relativePath = "" then absolutePath
  else
    let finalPath := pathJoin absolutePath relativePath
    if lastChar relativePath = some '/' ∧ lastChar finalPath ≠ some '/' then finalPath ++ "/"
    else finalPath

/-- The method `combineHandlers`: the chain of the group followed by the given
handlers. -/
def RouterGroup.combineHandlers (g : RouterGroup) (handlers : List HandlerFunc) :
    List HandlerFunc :=
  g.Handlers ++ handlers

/-- The method `calculateAbsolutePath`. -/
def RouterGroup.calculateAbsolutePath (g : RouterGroup) (relativePath : String) : String :=
  joinPaths g.basePath relativePath

/-- The method `Group`: a new group that starts from a copy of the chain. -/
def RouterGroup.Group (g : RouterGroup) (relativePath : String) : RouterGroup :=
  { Handlers := g.combineHandlers [], basePath := g.calculateAbsolutePath relativePath }

/-- The method `Use`: append a middleware to the chain of this group. -/
def RouterGroup.Use (g : RouterGroup) (middleware : HandlerFunc) : RouterGroup :=
  { g with Handlers := g.Handlers ++ [middleware] }

/-- The method `handle` behind `GET`, `POST`, `PUT` and `DELETE`: add the route
of the absolute path with the combined chain to the engine. -/
def RouterGroup.handle (g : RouterGroup) (httpMethod relativePath : String)
    (handler : HandlerFunc) (engine : Engine) : Engine :=
  { engine with
    routes := engine.routes ++
      [{ method := httpMethod, path := g.calculateAbsolutePath relativePath,
         handlers := g.combineHandlers [handler] }] }

/-- The constructor `gin.Default()`: an engine at base path `/` that uses the
logger and the recovery middleware. -/
def ginDefault : Engine :=
  { group := { Handlers := [HandlerFunc.Logger, HandlerFunc.Recovery], basePath := "/" },
    routes := [], noRoute := [] }

/-- The function `RegisterRoutes`. -/
def RegisterRoutes (router : Engine) (authMiddleware : HandlerFunc) : Engine :=
  let router := router.group.handle "GET" "/health" HandlerFunc.CheckHealth router
  let router := router.group.handle "GET" "/swagger/*any" HandlerFunc.SwaggerHandler router
  let authRoutes := router.group.Group "/auth"
  let router := authRoutes.handle "POST" "/register" HandlerFunc.Register router
  let router := authRoutes.handle "POST" "/login" HandlerFunc.Login router
  let router := authRoutes.handle "POST" "/logout" HandlerFunc.Logout router
  let router := authRoutes.handle "GET" "/username-check/:username"
    HandlerFunc.CheckUsernameAvailability router
  let protectedGroup := router.group.Group "/"
  let protectedGroup := protectedGroup.Use authMiddleware
  let userRoutes := protectedGroup.Group "/users"
  let router := userRoutes.handle "GET" "/me" HandlerFunc.GetCurrentUser router
  let router := userRoutes.handle "PUT" "/me" HandlerFunc.UpdateUser router
  let router := userRoutes.handle "PUT" "/me/password" HandlerFunc.ChangePassword router
  let router := userRoutes.handle "DELETE" "/me" HandlerFunc.DeleteUser router
  let todoRoutes := protectedGroup.Group "/todos"
  let router := todoRoutes.handle "POST" "/" HandlerFunc.CreateTodo router
  let router := todoRoutes.handle "GET" "/" HandlerFunc.GetAllTodos router
  let router := todoRoutes.handle "GET" "/:id" HandlerFunc.GetTodoByID router
  let router := todoRoutes.handle "PUT" "/:id" HandlerFunc.UpdateTodo router
  let router := todoRoutes.handle "DELETE" "/:id" HandlerFunc.DeleteTodo router
  router

/-- The function `setupRouter`. -/
def setupRouter : Engine :=
  let router := ginDefault
  let authMiddleware := HandlerFunc.AuthMiddleware
  let router := RegisterRoutes router authMiddleware
  let router := router.group.handle "GET" "/ping" HandlerFunc.Ping router
  let router := router.group.handle "GET" "/" HandlerFunc.Welcome router
  { router with noRoute := router.group.combineHandlers [HandlerFunc.NotFound] }

/-- The middleware stands in the chain ahead of the final handler. -/
def Route.guardedBy (r : Route) (middleware : HandlerFunc) : Bool :=
  decide (middleware ∈ r.handlers.dropLast)

/-- The path lies under the given group path. -/
def Route.under (r : Route) (groupPath : String) : Bool :=
  groupPath.data.isPrefixOf r.path.data

/-! ## Lemmas: keys, maps and the scan loop -/

theorem cacheKey_injective (u v : String) (h : cacheKey u = cacheKey v) : u = v := by
  unfold cacheKey at h
  have h2 := congrArg String.data h
  simp only [String.data_append] at h2
  exact String.ext (List.append_cancel_left h2)

theorem cacheKey_ne_sentinel (u : String) : cacheKey u ≠ usernameCacheSentinelKey := by
  intro h
  unfold cacheKey usernameCacheSentinelKey at h
  have h2 := congrArg String.data h
  simp only [String.data_append] at h2
  have h3 := congrArg (fun l => l.get? 8) h2
  simp at h3

theorem mem_stagedUsernames (docs : List Record) (u : String) :
    u ∈ stagedUsernames docs ↔ Record.ok u ∈ docs ∧ u ≠ "" := by
  induction docs with
  | nil => simp [stagedUsernames]
  | cons d rest ih =>
    cases d with
    | ok w =>
      by_cases hw : w = ""
      · simp only [stagedUsernames, hw, ne_eq, not_true_eq_false, if_false, ih, List.mem_cons,
          Record.ok.injEq]
        constructor
        · rintro ⟨h1, h2⟩; exact ⟨Or.inr h1, h2⟩
        · rintro ⟨h1 | h1, h2⟩
          · exact absurd h1 h2
          · exact ⟨h1, h2⟩
      · simp only [stagedUsernames, ne_eq, hw, not_false_eq_true, if_true, List.mem_cons, ih,
          Record.ok.injEq]
        constructor
        · rintro (h1 | ⟨h1, h2⟩)
          · exact ⟨Or.inl h1, h1 ▸ hw⟩
          · exact ⟨Or.inr h1, h2⟩
        · rintro ⟨h1 | h1, h2⟩
          · exact Or.inl h1
          · exact Or.inr ⟨h1, h2⟩
    | undecodable e => simp [stagedUsernames, ih]

theorem mem_keys_assign (m : GoMap) (k : String) (v : Value) (x : String) :
    x ∈ (m.assign k v).keys ↔ x = k ∨ x ∈ m.keys := by
  induction m with
  | nil => simp [GoMap.assign, GoMap.keys]
  | cons p rest ih =>
    obtain ⟨k0, v0⟩ := p
    by_cases hk : k0 = k
    · subst hk; simp [GoMap.assign, GoMap.keys]
    · simp only [GoMap.keys] at ih
      simp [GoMap.assign, GoMap.keys, hk, ih]
      tauto

theorem nodup_keys_assign (m : GoMap) (k : String) (v : Value) (h : m.keys.Nodup) :
    (m.assign k v).keys.Nodup := by
  induction m with
  | nil => simp [GoMap.assign, GoMap.keys]
  | cons p rest ih =>
    obtain ⟨k0, v0⟩ := p
    by_cases hk : k0 = k
    · subst hk; simpa [GoMap.assign, GoMap.keys] using h
    · have hn : (k0 :: GoMap.keys rest).Nodup := by simpa [GoMap.keys] using h
      rw [List.nodup_cons] at hn
      have h1 : (GoMap.assign rest k v).keys.Nodup := ih hn.2
      have h2 : k0 ∉ (GoMap.assign rest k v).keys := by
        rw [mem_keys_assign]; rintro (h3 | h3)
        · exact hk h3
        · exact hn.1 h3
      have : (GoMap.assign ((k0, v0) :: rest) k v).keys = k0 :: (GoMap.assign rest k v).keys := by
        simp [GoMap.assign, GoMap.keys, hk]
      rw [this]; exact List.nodup_cons.mpr ⟨h2, h1⟩

theorem mem_assign (m : GoMap) (k : String) (v : Value) (p : String × Value)
    (h : p ∈ m.assign k v) : p = (k, v) ∨ p ∈ m := by
  induction m with
  | nil => simpa [GoMap.assign] using h
  | cons q rest ih =>
    obtain ⟨k0, v0⟩ := q
    by_cases hk : k0 = k
    · simp only [GoMap.assign, hk, if_true, List.mem_cons] at h
      rcases h with h | h
      · exact Or.inl h
      · exact Or.inr (List.mem_cons_of_mem _ h)
    · simp only [GoMap.assign, hk, if_false, List.mem_cons] at h
      rcases h with h | h
      · exact Or.inr (h ▸ List.mem_cons_self _ _)
      · rcases ih h with h2 | h2
        · exact Or.inl h2
        · exact Or.inr (List.mem_cons_of_mem _ h2)

theorem scanLoop_eq (docs : List Record) (m : GoMap) (tr : List Event) :
    scanLoop docs m tr = (stageAll docs m, tr ++ decodeLogs docs) := by
  unfold stageAll decodeLogs
  induction docs generalizing m tr with
  | nil => simp [scanLoop]
  | cons d rest ih =>
    cases d with
    | ok u =>
      by_cases hu : u = ""
      · simp only [scanLoop, hu, ne_eq, not_true_eq_false, if_false]
        exact ih m tr
      · simp only [scanLoop, ne_eq, hu, not_false_eq_true, if_true]
        rw [ih (m.assign (cacheKey u) (Value.bool true)) tr,
          ih (GoMap.assign [] (cacheKey u) (Value.bool true)) []]
        simp
    | undecodable e =>
      simp only [scanLoop]
      rw [ih m (tr ++ _), ih m ([] ++ _), ih [] ([] ++ _)]
      simp

theorem stageAll_nil (m : GoMap) : stageAll [] m = m := rfl

theorem stageAll_undecodable (e : GoError) (rest : List Record) (m : GoMap) :
    stageAll (Record.undecodable e :: rest) m = stageAll rest m := by
  show (scanLoop rest m _).1 = _
  rw [scanLoop_eq]

theorem stageAll_ok (u : String) (rest : List Record) (m : GoMap) :
    stageAll (Record.ok u :: rest) m =
      if u ≠ "" then stageAll rest (m.assign (cacheKey u) (Value.bool true))
      else stageAll rest m := by
  unfold stageAll
  by_cases hu : u = "" <;> simp [scanLoop, hu]

theorem decodeLogs_isLog (docs : List Record) (e : Event) (h : e ∈ decodeLogs docs) :
    ∃ line, e = Event.Log line := by
  induction docs with
  | nil => simp [decodeLogs, scanLoop] at h
  | cons d rest ih =>
    cases d with
    | ok u =>
      have : decodeLogs (Record.ok u :: rest) = decodeLogs rest := by
        unfold decodeLogs
        by_cases hu : u = ""
        · simp [scanLoop, hu]
        · simp only [scanLoop, ne_eq, hu, not_false_eq_true, if_true]
          rw [scanLoop_eq]; simp [decodeLogs]
      rw [this] at h; exact ih h
    | undecodable err =>
      have : decodeLogs (Record.undecodable err :: rest) =
          Event.Log ("Error decoding username during preload: " ++ err.msg) :: decodeLogs rest := by
        show (scanLoop rest [] _).2 = _
        rw [scanLoop_eq]; simp
      rw [this] at h
      rcases List.mem_cons.mp h with h | h
      · exact ⟨_, h⟩
      · exact ih h

theorem mem_keys_stageAll (docs : List Record) (m : GoMap) (k : String) :
    k ∈ (stageAll docs m).keys ↔ k ∈ m.keys ∨ ∃ u, u ∈ stagedUsernames docs ∧ k = cacheKey u := by
  induction docs generalizing m with
  | nil => simp [stageAll_nil, stagedUsernames]
  | cons d rest ih =>
    cases d with
    | ok u =>
      by_cases hu : u = ""
      · simp [stageAll_ok, stagedUsernames, hu, ih]
      · simp only [stageAll_ok, ne_eq, hu, not_false_eq_true, if_true, ih, mem_keys_assign,
          stagedUsernames, List.mem_cons]
        constructor
        · rintro ((h | h) | ⟨w, hw, hk⟩)
          · exact Or.inr ⟨u, Or.inl rfl, h⟩
          · exact Or.inl h
          · exact Or.inr ⟨w, Or.inr hw, hk⟩
        · rintro (h | ⟨w, hw | hw, hk⟩)
          · exact Or.inl (Or.inr h)
          · exact Or.inl (Or.inl (hw ▸ hk))
          · exact Or.inr ⟨w, hw, hk⟩
    | undecodable e => simp [stageAll_undecodable, stagedUsernames, ih]

theorem nodup_keys_stageAll (docs : List Record) (m : GoMap) (h : m.keys.Nodup) :
    (stageAll docs m).keys.Nodup := by
  induction docs generalizing m with
  | nil => simpa [stageAll_nil] using h
  | cons d rest ih =>
    cases d with
    | ok u =>
      by_cases hu : u = ""
      · simpa [stageAll_ok, hu] using ih m h
      · simpa [stageAll_ok, hu] using ih _ (nodup_keys_assign m _ _ h)
    | undecodable e => simpa [stageAll_undecodable] using ih m h

theorem values_stageAll (docs : List Record) (m : GoMap)
    (h : ∀ p ∈ m, p.2 = Value.bool true) : ∀ p ∈ stageAll docs m, p.2 = Value.bool true := by
  induction docs generalizing m with
  | nil => simpa [stageAll_nil] using h
  | cons d rest ih =>
    cases d with
    | ok u =>
      by_cases hu : u = ""
      · simpa [stageAll_ok, hu] using ih m h
      · have h2 : ∀ p ∈ m.assign (cacheKey u) (Value.bool true), p.2 = Value.bool true := by
          intro p hp
          rcases mem_assign m _ _ p hp with h3 | h3
          · rw [h3]
          · exact h p h3
        simpa [stageAll_ok, hu] using ih _ h2
    | undecodable e => simpa [stageAll_undecodable] using ih m h

/-! ## Lemmas: the trace of each branch of the warmer -/

theorem preload_disabled {σ : Type} (db : Database) (C : Cache σ) (cfg : Config) (s : σ)
    (h : cfg.EnableCache = false) :
    preloadUsernamesIntoCache db C cfg s =
      (s, [Event.Log "Caching is disabled. Skipping username preloading."]) := by
  simp [preloadUsernamesIntoCache, h]

theorem preload_hit {σ : Type} (db : Database) (C : Cache σ) (cfg : Config) (s : σ) (v : Value)
    (h : cfg.EnableCache = true) (hg : C.Get s usernameCacheSentinelKey = .ok v) :
    preloadUsernamesIntoCache db C cfg s =
      (s, [Event.Get usernameCacheSentinelKey,
           Event.Log "Username cache already initialized. Skipping preload."]) := by
  simp [preloadUsernamesIntoCache, h, hg]

theorem preload_findErr {σ : Type} (db : Database) (C : Cache σ) (cfg : Config) (s : σ)
    (e e2 : GoError)
    (h : cfg.EnableCache = true) (hg : C.Get s usernameCacheSentinelKey = .error e)
    (hf : db.Find = .error e2) :
    preloadUsernamesIntoCache db C cfg s =
      (s, scanOpening cfg ++
        [Event.Log ("Error querying for usernames to preload: " ++ e2.msg)]) := by
  simp [preloadUsernamesIntoCache, h, hg, hf, scanOpening]

theorem preload_cursorErr {σ : Type} (db : Database) (C : Cache σ) (cfg : Config) (s : σ)
    (e e2 : GoError) (cur : Cursor)
    (h : cfg.EnableCache = true) (hg : C.Get s usernameCacheSentinelKey = .error e)
    (hf : db.Find = .ok cur) (hc : cur.err = some e2) :
    preloadUsernamesIntoCache db C cfg s =
      (s, scanOpening cfg ++ decodeLogs cur.docs ++
        [Event.Log ("Cursor error during username preload: " ++ e2.msg)]) := by
  simp [preloadUsernamesIntoCache, h, hg, hf, hc, scanOpening, scanLoop_eq]

theorem preload_empty {σ : Type} (db : Database) (C : Cache σ) (cfg : Config) (s : σ)
    (e : GoError) (cur : Cursor)
    (h : cfg.EnableCache = true) (hg : C.Get s usernameCacheSentinelKey = .error e)
    (hf : db.Find = .ok cur) (hc : cur.err = none) (hl : (stageAll cur.docs []).length = 0) :
    preloadUsernamesIntoCache db C cfg s =
      (s, scanOpening cfg ++ decodeLogs cur.docs ++
        [Event.Log "No usernames found to preload."]) := by
  simp [preloadUsernamesIntoCache, h, hg, hf, hc, scanOpening, scanLoop_eq, hl]

theorem preload_setManyErr {σ : Type} (db : Database) (C : Cache σ) (cfg : Config) (s : σ)
    (e e2 : GoError) (cur : Cursor)
    (h : cfg.EnableCache = true) (hg : C.Get s usernameCacheSentinelKey = .error e)
    (hf : db.Find = .ok cur) (hc : cur.err = none) (hl : 0 < (stageAll cur.docs []).length)
    (hs : (C.SetMany s (stageAll cur.docs []) usernameCacheTTL).1 = some e2) :
    preloadUsernamesIntoCache db C cfg s =
      ((C.SetMany s (stageAll cur.docs []) usernameCacheTTL).2,
        scanOpening cfg ++ decodeLogs cur.docs ++
        [Event.SetMany (stageAll cur.docs []) usernameCacheTTL,
         Event.Log ("Error preloading usernames to cache: " ++ e2.msg)]) := by
  rcases hsm : C.SetMany s (stageAll cur.docs []) usernameCacheTTL with ⟨r, s1⟩
  rw [hsm] at hs
  simp only at hs
  subst hs
  simp [preloadUsernamesIntoCache, h, hg, hf, hc, scanOpening, scanLoop_eq, hl, hsm]

theorem preload_success {σ : Type} (db : Database) (C : Cache σ) (cfg : Config) (s : σ)
    (e : GoError) (cur : Cursor)
    (h : cfg.EnableCache = true) (hg : C.Get s usernameCacheSentinelKey = .error e)
    (hf : db.Find = .ok cur) (hc : cur.err = none) (hl : 0 < (stageAll cur.docs []).length)
    (hs : (C.SetMany s (stageAll cur.docs []) usernameCacheTTL).1 = none) :
    preloadUsernamesIntoCache db C cfg s =
      ((C.Set (C.SetMany s (stageAll cur.docs []) usernameCacheTTL).2
          usernameCacheSentinelKey (Value.str "true") usernameCacheTTL).2,
        scanOpening cfg ++ decodeLogs cur.docs ++
        [Event.SetMany (stageAll cur.docs []) usernameCacheTTL,
         Event.Set usernameCacheSentinelKey (Value.str "true") usernameCacheTTL,
         Event.Log ("Successfully preloaded " ++ toString (stageAll cur.docs []).length ++
           " usernames into the cache.")]) := by
  rcases hsm : C.SetMany s (stageAll cur.docs []) usernameCacheTTL with ⟨r, s1⟩
  rw [hsm] at hs
  simp only at hs
  subst hs
  simp [preloadUsernamesIntoCache, h, hg, hf, hc, scanOpening, scanLoop_eq, hl, hsm]

/-! ## Lemmas: which calls a run makes -/

theorem not_mem_decodeLogs (docs : List Record) (e : Event) (h : e.isCall = true) :
    e ∉ decodeLogs docs := by
  intro hm
  obtain ⟨line, hl⟩ := decodeLogs_isLog docs e hm
  subst hl
  simp [Event.isCall] at h

theorem find_ok_docs (db : Database) (cur : Cursor) (hf : db.Find = .ok cur)
    (hc : cur.err = none) : cur.docs = db.users ∧ db.findErr = none ∧ db.cursorErr = none := by
  unfold Database.Find at hf
  cases h1 : db.findErr with
  | some e => simp [h1] at hf
  | none =>
    cases h2 : db.cursorErr with
    | none =>
      simp only [h1, h2, Except.ok.injEq] at hf
      subst hf
      exact ⟨rfl, rfl, rfl⟩
    | some p =>
      obtain ⟨n, e⟩ := p
      simp only [h1, h2, Except.ok.injEq] at hf
      subst hf
      simp at hc

theorem mem_trace_set {σ : Type} (db : Database) (C : Cache σ) (cfg : Config) (s : σ)
    (k : String) (v : Value) (t : Nat) :
    Event.Set k v t ∈ (preloadUsernamesIntoCache db C cfg s).2 ↔
      (k = usernameCacheSentinelKey ∧ v = Value.str "true" ∧ t = usernameCacheTTL) ∧
      cfg.EnableCache = true ∧ (∃ e, C.Get s usernameCacheSentinelKey = .error e) ∧
      ∃ cur, db.Find = .ok cur ∧ cur.err = none ∧ 0 < (stageAll cur.docs []).length ∧
        (C.SetMany s (stageAll cur.docs []) usernameCacheTTL).1 = none := by
  have hnl : ∀ docs, Event.Set k v t ∉ decodeLogs docs :=
    fun docs => not_mem_decodeLogs docs _ rfl
  cases hen : cfg.EnableCache with
  | false => simp [preload_disabled db C cfg s hen]
  | true =>
    cases hg : C.Get s usernameCacheSentinelKey with
    | ok val => simp [preload_hit db C cfg s val hen hg]
    | error e =>
      cases hf : db.Find with
      | error e2 => simp [preload_findErr db C cfg s e e2 hen hg hf, scanOpening]
      | ok cur =>
        cases hc : cur.err with
        | some e2 =>
          simp [preload_cursorErr db C cfg s e e2 cur hen hg hf hc, scanOpening, hnl, hc]
        | none =>
          by_cases hl : 0 < (stageAll cur.docs []).length
          · cases hs : (C.SetMany s (stageAll cur.docs []) usernameCacheTTL).1 with
            | some e2 =>
              simp [preload_setManyErr db C cfg s e e2 cur hen hg hf hc hl hs, scanOpening, hnl,
                hs]
            | none =>
              simp [preload_success db C cfg s e cur hen hg hf hc hl hs, scanOpening, hnl, hs,
                hc, hl]
          · have hl0 : (stageAll cur.docs []).length = 0 := by omega
            simp [preload_empty db C cfg s e cur hen hg hf hc hl0, scanOpening, hnl, hl0]

theorem mem_trace_setMany {σ : Type} (db : Database) (C : Cache σ) (cfg : Config) (s : σ)
    (items : GoMap) (t : Nat) :
    Event.SetMany items t ∈ (preloadUsernamesIntoCache db C cfg s).2 ↔
      t = usernameCacheTTL ∧
      cfg.EnableCache = true ∧ (∃ e, C.Get s usernameCacheSentinelKey = .error e) ∧
      ∃ cur, db.Find = .ok cur ∧ cur.err = none ∧ items = stageAll cur.docs [] ∧
        0 < items.length := by
  have hnl : ∀ docs, Event.SetMany items t ∉ decodeLogs docs :=
    fun docs => not_mem_decodeLogs docs _ rfl
  cases hen : cfg.EnableCache with
  | false => simp [preload_disabled db C cfg s hen]
  | true =>
    cases hg : C.Get s usernameCacheSentinelKey with
    | ok val => simp [preload_hit db C cfg s val hen hg]
    | error e =>
      cases hf : db.Find with
      | error e2 => simp [preload_findErr db C cfg s e e2 hen hg hf, scanOpening]
      | ok cur =>
        cases hc : cur.err with
        | some e2 =>
          simp [preload_cursorErr db C cfg s e e2 cur hen hg hf hc, scanOpening, hnl, hc]
        | none =>
          by_cases hl : 0 < (stageAll cur.docs []).length
          · cases hs : (C.SetMany s (stageAll cur.docs []) usernameCacheTTL).1 with
            | some e2 =>
              simp only [preload_setManyErr db C cfg s e e2 cur hen hg hf hc hl hs, scanOpening]
              simp [hnl, hc]
              constructor
              · rintro ⟨h1, h2⟩; subst h1; exact ⟨h2, rfl, hl⟩
              · rintro ⟨h1, h2, h3⟩; exact ⟨h2, h1⟩
            | none =>
              simp only [preload_success db C cfg s e cur hen hg hf hc hl hs, scanOpening]
              simp [hnl, hc]
              constructor
              · rintro ⟨h1, h2⟩; subst h1; exact ⟨h2, rfl, hl⟩
              · rintro ⟨h1, h2, h3⟩; exact ⟨h2, h1⟩
          · have hl0 : (stageAll cur.docs []).length = 0 := by omega
            simp only [preload_empty db C cfg s e cur hen hg hf hc hl0, scanOpening]
            simp [hnl, hc]
            intro _ h2
            rw [h2]
            exact List.eq_nil_of_length_eq_zero hl0

theorem success_of_set_mem {σ : Type} (db : Database) (C : Cache σ) (cfg : Config) (s : σ)
    (k : String) (v : Value) (t : Nat)
    (h : Event.Set k v t ∈ (preloadUsernamesIntoCache db C cfg s).2) :
    (preloadUsernamesIntoCache db C cfg s).2 =
      scanOpening cfg ++ decodeLogs db.users ++
        [Event.SetMany (stageAll db.users []) usernameCacheTTL,
         Event.Set usernameCacheSentinelKey (Value.str "true") usernameCacheTTL,
         Event.Log ("Successfully preloaded " ++ toString (stageAll db.users []).length ++
           " usernames into the cache.")] ∧
      (C.SetMany s (stageAll db.users []) usernameCacheTTL).1 = none := by
  obtain ⟨_, hen, ⟨e, hg⟩, cur, hf, hc, hl, hs⟩ := (mem_trace_set db C cfg s k v t).mp h
  rw [preload_success db C cfg s e cur hen hg hf hc hl hs]
  obtain ⟨hd, _, _⟩ := find_ok_docs db cur hf hc
  rw [hd] at hs ⊢
  exact ⟨rfl, hs⟩

theorem mem_stageAll_of_user (docs : List Record) (u : String) (h : Record.ok u ∈ docs)
    (hu : u ≠ "") : (cacheKey u, Value.bool true) ∈ stageAll docs [] := by
  have hk : cacheKey u ∈ (stageAll docs []).keys :=
    (mem_keys_stageAll docs [] (cacheKey u)).mpr
      (Or.inr ⟨u, (mem_stagedUsernames docs u).mpr ⟨h, hu⟩, rfl⟩)
  unfold GoMap.keys at hk
  obtain ⟨p, hp, hpk⟩ := List.mem_map.mp hk
  have hv := values_stageAll docs [] (by simp) p hp
  have : p = (cacheKey u, Value.bool true) := Prod.ext hpk hv
  rw [← this]; exact hp

theorem length_stageAll (docs : List Record) :
    (stageAll docs []).length = (stagedUsernames docs).dedup.length := by
  have hnd := nodup_keys_stageAll docs [] (by simp [GoMap.keys])
  have hperm : (stageAll docs []).keys.Perm ((stagedUsernames docs).dedup.map cacheKey) := by
    rw [List.perm_ext_iff_of_nodup hnd
      ((List.nodup_dedup _).map (fun a b h => cacheKey_injective a b h))]
    intro k
    rw [mem_keys_stageAll]
    simp [GoMap.keys]
    constructor
    · rintro ⟨u, hu, hk⟩; exact ⟨u, hu, hk.symm⟩
    · rintro ⟨u, hu, hk⟩; exact ⟨u, hu, hk.symm⟩
  have := hperm.length_eq
  simpa [GoMap.keys] using this

/-! ## The claims -/

/-- C1. For every outcome of the cache and collection calls, `Set` is called on
the sentinel key if and only if caching is enabled, the `Get` of the sentinel
returned an error, the scan completed without error (`Find` returned a cursor and
the cursor reports no error), the staged batch is non-empty and `SetMany` on that
batch returned no error; and whenever the sentinel is written, a `SetMany` call
stands before it in the trace. -/
theorem sentinel_written_iff {σ : Type} (db : Database) (C : Cache σ) (cfg : Config) (s : σ) :
    ((∃ v ttl, Event.Set usernameCacheSentinelKey v ttl ∈
        (preloadUsernamesIntoCache db C cfg s).2) ↔
      (cfg.EnableCache = true ∧ (∃ e, C.Get s usernameCacheSentinelKey = .error e) ∧
        ∃ cur, db.Find = .ok cur ∧ cur.err = none ∧ 0 < (stageAll cur.docs []).length ∧
          (C.SetMany s (stageAll cur.docs []) usernameCacheTTL).1 = none)) ∧
    (∀ v ttl, Event.Set usernameCacheSentinelKey v ttl ∈
        (preloadUsernamesIntoCache db C cfg s).2 →
      ∃ items t, Precedes (Event.SetMany items t) (Event.Set usernameCacheSentinelKey v ttl)
        (preloadUsernamesIntoCache db C cfg s).2) := by
  constructor
  · constructor
    · rintro ⟨v, ttl, h⟩
      exact ((mem_trace_set db C cfg s _ v ttl).mp h).2
    · intro h
      exact ⟨Value.str "true", usernameCacheTTL,
        (mem_trace_set db C cfg s _ _ _).mpr ⟨⟨rfl, rfl, rfl⟩, h⟩⟩
  · intro v ttl h
    obtain ⟨⟨_, hv, ht⟩, _⟩ := (mem_trace_set db C cfg s _ v ttl).mp h
    obtain ⟨htr, _⟩ := success_of_set_mem db C cfg s _ v ttl h
    subst hv ht
    exact ⟨stageAll db.users [], usernameCacheTTL, scanOpening cfg ++ decodeLogs db.users, [],
      [Event.Log ("Successfully preloaded " ++ toString (stageAll db.users []).length ++
        " usernames into the cache.")], by rw [htr]; simp⟩

/-- C1, at a collection with alice and bob and a cold in-process cache: the
sentinel is written, after the bulk write. -/
theorem sentinel_written_iff_witness :
    (∃ v ttl, Event.Set usernameCacheSentinelKey v ttl ∈
      (preloadUsernamesIntoCache dbAliceBob memCache cfgOn coldStore).2) ∧
    ∃ items t, Precedes (Event.SetMany items t)
      (Event.Set usernameCacheSentinelKey (Value.str "true") usernameCacheTTL)
      (preloadUsernamesIntoCache dbAliceBob memCache cfgOn coldStore).2 :=
  have hw : ∃ v ttl, Event.Set usernameCacheSentinelKey v ttl ∈
      (preloadUsernamesIntoCache dbAliceBob memCache cfgOn coldStore).2 :=
    (sentinel_written_iff dbAliceBob memCache cfgOn coldStore).1.mpr
      ⟨rfl, ⟨⟨"cache miss"⟩, rfl⟩, ⟨dbAliceBob.users, none⟩, rfl, rfl, by decide, rfl⟩
  ⟨hw, (sentinel_written_iff dbAliceBob memCache cfgOn coldStore).2 _ _ (by decide)⟩

/-- C2. With caching enabled, when the `Get` of the sentinel key succeeds,
whatever value it returns, the warmer leaves the cache as it is and its trace has
no collection scan and no cache write. Hence for two runs in succession: if,
after whatever happens to the cache between the runs, reading the sentinel still
succeeds, the second run performs no collection scan. -/
theorem warmer_idempotent {σ : Type} (db db2 : Database) (C : Cache σ) (cfg : Config) (s : σ)
    (between : σ → σ) (hen : cfg.EnableCache = true) :
    (∀ v, C.Get s usernameCacheSentinelKey = .ok v →
      (preloadUsernamesIntoCache db C cfg s).1 = s ∧
      ∀ e ∈ (preloadUsernamesIntoCache db C cfg s).2, e.isScan = false ∧ e.isWrite = false) ∧
    (∀ v, C.Get (between (preloadUsernamesIntoCache db C cfg s).1) usernameCacheSentinelKey
        = .ok v →
      ∀ e ∈ (preloadUsernamesIntoCache db2 C cfg
          (between (preloadUsernamesIntoCache db C cfg s).1)).2, e.isScan = false) := by
  constructor
  · intro v hg
    rw [preload_hit db C cfg s v hen hg]
    refine ⟨rfl, ?_⟩
    intro e he
    simp only [List.mem_cons, List.mem_singleton, List.not_mem_nil, or_false] at he
    rcases he with he | he <;> subst he <;> exact ⟨rfl, rfl⟩
  · intro v hg
    rw [preload_hit db2 C cfg _ v hen hg]
    intro e he
    simp only [List.mem_cons, List.mem_singleton, List.not_mem_nil, or_false] at he
    rcases he with he | he <;> subst he <;> rfl

/-- C2, on the in-process cache: the first run over alice and bob writes the
sentinel; one hour later the second run only reads the sentinel and logs. -/
theorem warmer_idempotent_witness :
    (preloadUsernamesIntoCache dbAliceBob memCache cfgOn
      ((preloadUsernamesIntoCache dbAliceBob memCache cfgOn coldStore).1.elapse Hour)).2 =
      [Event.Get usernameCacheSentinelKey,
       Event.Log "Username cache already initialized. Skipping preload."] ∧
    ∀ e ∈ (preloadUsernamesIntoCache dbAliceBob memCache cfgOn
      ((preloadUsernamesIntoCache dbAliceBob memCache cfgOn coldStore).1.elapse Hour)).2,
      e.isScan = false :=
  ⟨by decide,
   (warmer_idempotent dbAliceBob dbAliceBob memCache cfgOn coldStore
      (fun st => st.elapse Hour) rfl).2 (Value.str "true") rfl⟩

/-- C3. Every batch the warmer passes to `SetMany` comes from a scan that
completed without error (the cursor that `Find` returned reports none), and has
as its keys exactly the keys `"username-taken:" ++ u` of the non-empty usernames
`u` among the records of that scan, each once, and maps each of them to the
marker `true`. -/
theorem batch_keys_exact {σ : Type} (db : Database) (C : Cache σ) (cfg : Config) (s : σ)
    (cur : Cursor) (items : GoMap) (ttl : Nat)
    (hf : db.Find = .ok cur)
    (h : Event.SetMany items ttl ∈ (preloadUsernamesIntoCache db C cfg s).2) :
    cur.err = none ∧
    (∀ k, k ∈ items.keys ↔ ∃ u, Record.ok u ∈ cur.docs ∧ u ≠ "" ∧ k = "username-taken:" ++ u) ∧
    (∀ p ∈ items, p.2 = Value.bool true) ∧
    items.keys.Nodup := by
  obtain ⟨_, _, _, cur2, hf2, hc, hi, _⟩ := (mem_trace_setMany db C cfg s items ttl).mp h
  rw [hf] at hf2
  cases hf2
  subst hi
  refine ⟨hc, ?_, values_stageAll cur.docs [] (by simp), nodup_keys_stageAll cur.docs [] (by simp [GoMap.keys])⟩
  intro k
  rw [mem_keys_stageAll]
  simp only [GoMap.keys, List.map_nil, List.not_mem_nil, false_or, mem_stagedUsernames, cacheKey]
  constructor
  · rintro ⟨u, ⟨h1, h2⟩, h3⟩; exact ⟨u, h1, h2, h3⟩
  · rintro ⟨u, h1, h2, h3⟩; exact ⟨u, ⟨h1, h2⟩, h3⟩

/-- C3, at a collection with alice, bob twice, an empty username and an
undecodable document: the key of alice is in the batch, the key of carol and the
key of the empty username are not, and bob has one key. -/
theorem batch_keys_exact_witness :
    Event.SetMany [("username-taken:alice", Value.bool true),
        ("username-taken:bob", Value.bool true)] usernameCacheTTL ∈
      (preloadUsernamesIntoCache dbAliceBob memCache cfgOn coldStore).2 ∧
    "username-taken:alice" ∈ GoMap.keys [("username-taken:alice", Value.bool true),
        ("username-taken:bob", Value.bool true)] ∧
    "username-taken:carol" ∉ GoMap.keys [("username-taken:alice", Value.bool true),
        ("username-taken:bob", Value.bool true)] ∧
    (∀ k, k ∈ GoMap.keys [("username-taken:alice", Value.bool true),
        ("username-taken:bob", Value.bool true)] ↔
      ∃ u, Record.ok u ∈ dbAliceBob.users ∧ u ≠ "" ∧ k = "username-taken:" ++ u) :=
  ⟨by decide, by decide, by decide,
   (batch_keys_exact dbAliceBob memCache cfgOn coldStore ⟨dbAliceBob.users, none⟩ _
      usernameCacheTTL rfl (by decide)).2.1⟩

/-- C4. Whenever a run writes the sentinel entry, a `SetMany` that returned no
error stands before that write in the trace, and the batch it wrote holds the
marker `true` under `"username-taken:" ++ u` for every non-empty username `u`
stored in the user collection. -/
theorem sentinel_after_full_load {σ : Type} (db : Database) (C : Cache σ) (cfg : Config)
    (s : σ) (v : Value) (ttl : Nat)
    (h : Event.Set usernameCacheSentinelKey v ttl ∈ (preloadUsernamesIntoCache db C cfg s).2) :
    ∃ items t,
      Precedes (Event.SetMany items t) (Event.Set usernameCacheSentinelKey v ttl)
        (preloadUsernamesIntoCache db C cfg s).2 ∧
      (C.SetMany s items t).1 = none ∧
      ∀ u, Record.ok u ∈ db.users → u ≠ "" →
        ("username-taken:" ++ u, Value.bool true) ∈ items := by
  obtain ⟨⟨_, hv, ht⟩, _⟩ := (mem_trace_set db C cfg s _ v ttl).mp h
  obtain ⟨htr, hs⟩ := success_of_set_mem db C cfg s _ v ttl h
  subst hv ht
  refine ⟨stageAll db.users [], usernameCacheTTL, ?_, hs, ?_⟩
  · exact ⟨scanOpening cfg ++ decodeLogs db.users, [],
      [Event.Log ("Successfully preloaded " ++ toString (stageAll db.users []).length ++
        " usernames into the cache.")], by rw [htr]; simp⟩
  · intro u hu hne
    exact mem_stageAll_of_user db.users u hu hne

/-- C4, at the collection with alice and bob: the sentinel is written and the
batch written before it holds the markers of alice and of bob. -/
theorem sentinel_after_full_load_witness :
    Event.Set usernameCacheSentinelKey (Value.str "true") usernameCacheTTL ∈
      (preloadUsernamesIntoCache dbAliceBob memCache cfgOn coldStore).2 ∧
    ∃ items t,
      Precedes (Event.SetMany items t)
        (Event.Set usernameCacheSentinelKey (Value.str "true") usernameCacheTTL)
        (preloadUsernamesIntoCache dbAliceBob memCache cfgOn coldStore).2 ∧
      (memCache.SetMany coldStore items t).1 = none ∧
      ∀ u, Record.ok u ∈ dbAliceBob.users → u ≠ "" →
        ("username-taken:" ++ u, Value.bool true) ∈ items :=
  ⟨by decide,
   sentinel_after_full_load dbAliceBob memCache cfgOn coldStore (Value.str "true")
     usernameCacheTTL (by decide)⟩

/-- C5. If the collection scan fails, because `Find` returns an error or because
the cursor reports an error after the loop, then the run makes no cache write
(its trace holds neither a `SetMany` nor a `Set`) and it leaves the cache state
exactly as it was, whatever the cursor had delivered before it failed. -/
theorem scan_failure_writes_nothing {σ : Type} (db : Database) (C : Cache σ) (cfg : Config)
    (s : σ)
    (h : (∃ e, db.Find = .error e) ∨ (∃ cur e, db.Find = .ok cur ∧ cur.err = some e)) :
    (preloadUsernamesIntoCache db C cfg s).1 = s ∧
    ∀ ev ∈ (preloadUsernamesIntoCache db C cfg s).2, ev.isWrite = false := by
  have hlog : ∀ docs, ∀ ev ∈ decodeLogs docs, ev.isWrite = false := by
    intro docs ev hev
    obtain ⟨line, hl⟩ := decodeLogs_isLog docs ev hev
    subst hl; rfl
  cases hen : cfg.EnableCache with
  | false =>
    rw [preload_disabled db C cfg s hen]
    refine ⟨rfl, ?_⟩
    intro ev hev
    simp only [List.mem_singleton] at hev
    subst hev; rfl
  | true =>
    cases hg : C.Get s usernameCacheSentinelKey with
    | ok val =>
      rw [preload_hit db C cfg s val hen hg]
      refine ⟨rfl, ?_⟩
      intro ev hev
      simp only [List.mem_cons, List.mem_singleton, List.not_mem_nil, or_false] at hev
      rcases hev with hev | hev <;> subst hev <;> rfl
    | error e =>
      rcases h with ⟨e2, hf⟩ | ⟨cur, e2, hf, hc⟩
      · rw [preload_findErr db C cfg s e e2 hen hg hf]
        refine ⟨rfl, ?_⟩
        intro ev hev
        simp only [scanOpening, List.mem_append, List.mem_cons, List.mem_singleton,
          List.not_mem_nil, or_false] at hev
        rcases hev with (hev | hev | hev) | hev <;> subst hev <;> rfl
      · rw [preload_cursorErr db C cfg s e e2 cur hen hg hf hc]
        refine ⟨rfl, ?_⟩
        intro ev hev
        simp only [scanOpening, List.mem_append, List.mem_cons, List.mem_singleton,
          List.not_mem_nil, or_false] at hev
        rcases hev with ((hev | hev | hev) | hev) | hev
        · subst hev; rfl
        · subst hev; rfl
        · subst hev; rfl
        · exact hlog _ ev hev
        · subst hev; rfl

/-- C5, at a cursor that fails after three documents, alice and bob already
staged, and at a `Find` that fails: the store stays cold and nothing is
written. -/
theorem scan_failure_writes_nothing_witness :
    ((preloadUsernamesIntoCache dbCursorFails memCache cfgOn coldStore).1 = coldStore ∧
      ∀ ev ∈ (preloadUsernamesIntoCache dbCursorFails memCache cfgOn coldStore).2,
        ev.isWrite = false) ∧
    ((preloadUsernamesIntoCache dbFindFails memCache cfgOn coldStore).1 = coldStore ∧
      ∀ ev ∈ (preloadUsernamesIntoCache dbFindFails memCache cfgOn coldStore).2,
        ev.isWrite = false) ∧
    stageAll (dbCursorFails.users.take 3) [] =
      [("username-taken:alice", Value.bool true), ("username-taken:bob", Value.bool true)] :=
  ⟨scan_failure_writes_nothing dbCursorFails memCache cfgOn coldStore
     (Or.inr ⟨⟨dbCursorFails.users.take 3, some ⟨"context deadline exceeded"⟩⟩,
       ⟨"context deadline exceeded"⟩, rfl, rfl⟩),
   scan_failure_writes_nothing dbFindFails memCache cfgOn coldStore
     (Or.inl ⟨⟨"server selection error"⟩, rfl⟩),
   by decide⟩

/-- C7. When the cache-enabled flag is false the run makes no call at all, no
`Get`, no collection scan, no `SetMany` and no `Set` (its trace is one log line),
and it leaves the cache state as it was, for every cache, cache state and user
collection. -/
theorem disabled_does_nothing {σ : Type} (db : Database) (C : Cache σ) (cfg : Config) (s : σ)
    (h : cfg.EnableCache = false) :
    (preloadUsernamesIntoCache db C cfg s).1 = s ∧
    (preloadUsernamesIntoCache db C cfg s).2 =
      [Event.Log "Caching is disabled. Skipping username preloading."] ∧
    ∀ ev ∈ (preloadUsernamesIntoCache db C cfg s).2, ev.isCall = false := by
  rw [preload_disabled db C cfg s h]
  refine ⟨rfl, rfl, ?_⟩
  intro ev hev
  simp only [List.mem_singleton] at hev
  subst hev; rfl

/-- C7, at the collection with alice and bob and a cold in-process cache. -/
theorem disabled_does_nothing_witness :
    (preloadUsernamesIntoCache dbAliceBob memCache cfgOff coldStore).1 = coldStore ∧
    (preloadUsernamesIntoCache dbAliceBob memCache cfgOff coldStore).2 =
      [Event.Log "Caching is disabled. Skipping username preloading."] ∧
    ∀ ev ∈ (preloadUsernamesIntoCache dbAliceBob memCache cfgOff coldStore).2,
      ev.isCall = false :=
  disabled_does_nothing dbAliceBob memCache cfgOff coldStore rfl

/-- C8. With caching enabled, for every error that `Get` returns on the sentinel
key, a miss or an unavailable store alike, the run goes on to scan the user
collection: its trace holds the `Find` on the collection `users`, after the
`Get`. -/
theorem sentinel_read_fails_open {σ : Type} (db : Database) (C : Cache σ) (cfg : Config)
    (s : σ) (e : GoError)
    (hen : cfg.EnableCache = true) (hg : C.Get s usernameCacheSentinelKey = .error e) :
    Precedes (Event.Get usernameCacheSentinelKey) (Event.Find cfg.DBName "users" (15 * Second))
      (preloadUsernamesIntoCache db C cfg s).2 := by
  have key : ∀ rest : List Event,
      Precedes (Event.Get usernameCacheSentinelKey)
        (Event.Find cfg.DBName "users" (15 * Second)) (scanOpening cfg ++ rest) :=
    fun rest => ⟨[], [Event.Log "Preloading usernames into cache..."], rest, by
      simp [scanOpening]⟩
  cases hf : db.Find with
  | error e2 =>
    rw [preload_findErr db C cfg s e e2 hen hg hf]
    exact key _
  | ok cur =>
    cases hc : cur.err with
    | some e2 =>
      rw [preload_cursorErr db C cfg s e e2 cur hen hg hf hc, List.append_assoc]
      exact key _
    | none =>
      by_cases hl : 0 < (stageAll cur.docs []).length
      · cases hs : (C.SetMany s (stageAll cur.docs []) usernameCacheTTL).1 with
        | some e2 =>
          rw [preload_setManyErr db C cfg s e e2 cur hen hg hf hc hl hs, List.append_assoc]
          exact key _
        | none =>
          rw [preload_success db C cfg s e cur hen hg hf hc hl hs, List.append_assoc]
          exact key _
      · have hl0 : (stageAll cur.docs []).length = 0 := by omega
        rw [preload_empty db C cfg s e cur hen hg hf hc hl0, List.append_assoc]
        exact key _

/-- C8, at a cache whose store is unavailable: the collection is scanned all the
same. -/
theorem sentinel_read_fails_open_witness :
    Precedes (Event.Get usernameCacheSentinelKey) (Event.Find "much_todo_db" "users" (15 * Second))
      (preloadUsernamesIntoCache dbAliceBob downCache cfgOn ()).2 :=
  sentinel_read_fails_open dbAliceBob downCache cfgOn () ⟨"cache unavailable"⟩ rfl rfl

/-- C9. In every run that makes both writes, the `Set` of the sentinel and the
`SetMany` of the markers receive the same TTL, and it is `usernameCacheTTL`,
24 hours (86400000000000 nanoseconds). -/
theorem sentinel_ttl_matches {σ : Type} (db : Database) (C : Cache σ) (cfg : Config) (s : σ)
    (items : GoMap) (t1 : Nat) (k : String) (v : Value) (t2 : Nat)
    (h1 : Event.SetMany items t1 ∈ (preloadUsernamesIntoCache db C cfg s).2)
    (h2 : Event.Set k v t2 ∈ (preloadUsernamesIntoCache db C cfg s).2) :
    k = usernameCacheSentinelKey ∧ t2 = t1 ∧ t1 = usernameCacheTTL ∧
    usernameCacheTTL = 24 * 60 * 60 * 1000000000 := by
  obtain ⟨ht1, _⟩ := (mem_trace_setMany db C cfg s items t1).mp h1
  obtain ⟨⟨hk, _, ht2⟩, _⟩ := (mem_trace_set db C cfg s k v t2).mp h2
  exact ⟨hk, by rw [ht1, ht2], ht1, by decide⟩

/-- C9, at the collection with alice and bob: both writes are made, and both
with the TTL of 24 hours. -/
theorem sentinel_ttl_matches_witness :
    Event.SetMany [("username-taken:alice", Value.bool true),
        ("username-taken:bob", Value.bool true)] (24 * Hour) ∈
      (preloadUsernamesIntoCache dbAliceBob memCache cfgOn coldStore).2 ∧
    Event.Set "username_cache_initialized" (Value.str "true") (24 * Hour) ∈
      (preloadUsernamesIntoCache dbAliceBob memCache cfgOn coldStore).2 ∧
    ("username_cache_initialized" = usernameCacheSentinelKey ∧ 24 * Hour = 24 * Hour ∧
      24 * Hour = usernameCacheTTL ∧ usernameCacheTTL = 24 * 60 * 60 * 1000000000) :=
  ⟨by decide, by decide,
   sentinel_ttl_matches dbAliceBob memCache cfgOn coldStore
     [("username-taken:alice", Value.bool true), ("username-taken:bob", Value.bool true)]
     (24 * Hour) "username_cache_initialized" (Value.str "true") (24 * Hour)
     (by decide) (by decide)⟩

/-- C10. The mapping from a username to its marker key is injective and never
yields the sentinel key; so the batch staged from any records has pairwise distinct
keys and exactly one entry per distinct non-empty username; and for every user
collection no batch passed to `SetMany` has the sentinel key among its keys. -/
theorem marker_keys_injective_off_sentinel {σ : Type} (db : Database) (C : Cache σ)
    (cfg : Config) (s : σ) (docs : List Record) :
    (∀ u v : String, cacheKey u = cacheKey v → u = v) ∧
    (∀ u : String, cacheKey u ≠ usernameCacheSentinelKey) ∧
    (stageAll docs []).keys.Nodup ∧
    (stageAll docs []).length = (stagedUsernames docs).dedup.length ∧
    (∀ items ttl, Event.SetMany items ttl ∈ (preloadUsernamesIntoCache db C cfg s).2 →
      usernameCacheSentinelKey ∉ items.keys) := by
  refine ⟨cacheKey_injective, cacheKey_ne_sentinel,
    nodup_keys_stageAll docs [] (by simp [GoMap.keys]), length_stageAll docs, ?_⟩
  intro items ttl h hk
  obtain ⟨_, _, _, cur, _, _, hi, _⟩ := (mem_trace_setMany db C cfg s items ttl).mp h
  subst hi
  rw [mem_keys_stageAll] at hk
  rcases hk with hk | ⟨u, _, hk⟩
  · simp [GoMap.keys] at hk
  · exact cacheKey_ne_sentinel u hk.symm

/-- C10, at the collection with alice and bob (bob stored twice): the batch has
two entries and the sentinel key is not one of its keys. -/
theorem marker_keys_injective_off_sentinel_witness :
    (stageAll dbAliceBob.users []).length = 2 ∧
    (stagedUsernames dbAliceBob.users).dedup.length = 2 ∧
    usernameCacheSentinelKey ∉ GoMap.keys [("username-taken:alice", Value.bool true),
        ("username-taken:bob", Value.bool true)] :=
  ⟨by decide,
   (marker_keys_injective_off_sentinel dbAliceBob memCache cfgOn coldStore
      dbAliceBob.users).2.2.2.1 ▸ (by decide),
   (marker_keys_injective_off_sentinel dbAliceBob memCache cfgOn coldStore
      dbAliceBob.users).2.2.2.2 _ usernameCacheTTL (by decide)⟩

/-- C6. In the route table that `RegisterRoutes` builds for `setupRouter`, every
route under `/users` and every route under `/todos` has `authMiddleware` in its
chain ahead of its final handler: the nine protected routes carry the chain
logger, recovery, `authMiddleware`, handler. The routes `/health`,
`/swagger/*any` and the four routes under `/auth` carry the chain logger,
recovery, handler, and no route outside `/users` and `/todos` has
`authMiddleware` in its chain. -/
theorem protected_routes_behind_auth :
    (∀ r ∈ (RegisterRoutes ginDefault HandlerFunc.AuthMiddleware).routes,
      (r.under "/users" = true ∨ r.under "/todos" = true) →
        r.guardedBy HandlerFunc.AuthMiddleware = true) ∧
    (∀ r ∈ (RegisterRoutes ginDefault HandlerFunc.AuthMiddleware).routes,
      ¬ (r.under "/users" = true ∨ r.under "/todos" = true) →
        HandlerFunc.AuthMiddleware ∉ r.handlers) ∧
    (RegisterRoutes ginDefault HandlerFunc.AuthMiddleware).routes =
      [⟨"GET", "/health", [.Logger, .Recovery, .CheckHealth]⟩,
       ⟨"GET", "/swagger/*any", [.Logger, .Recovery, .SwaggerHandler]⟩,
       ⟨"POST", "/auth/register", [.Logger, .Recovery, .Register]⟩,
       ⟨"POST", "/auth/login", [.Logger, .Recovery, .Login]⟩,
       ⟨"POST", "/auth/logout", [.Logger, .Recovery, .Logout]⟩,
       ⟨"GET", "/auth/username-check/:username",
         [.Logger, .Recovery, .CheckUsernameAvailability]⟩,
       ⟨"GET", "/users/me", [.Logger, .Recovery, .AuthMiddleware, .GetCurrentUser]⟩,
       ⟨"PUT", "/users/me", [.Logger, .Recovery, .AuthMiddleware, .UpdateUser]⟩,
       ⟨"PUT", "/users/me/password", [.Logger, .Recovery, .AuthMiddleware, .ChangePassword]⟩,
       ⟨"DELETE", "/users/me", [.Logger, .Recovery, .AuthMiddleware, .DeleteUser]⟩,
       ⟨"POST", "/todos/", [.Logger, .Recovery, .AuthMiddleware, .CreateTodo]⟩,
       ⟨"GET", "/todos/", [.Logger, .Recovery, .AuthMiddleware, .GetAllTodos]⟩,
       ⟨"GET", "/todos/:id", [.Logger, .Recovery, .AuthMiddleware, .GetTodoByID]⟩,
       ⟨"PUT", "/todos/:id", [.Logger, .Recovery, .AuthMiddleware, .UpdateTodo]⟩,
       ⟨"DELETE", "/todos/:id", [.Logger, .Recovery, .AuthMiddleware, .DeleteTodo]⟩] ∧
    setupRouter.routes = (RegisterRoutes ginDefault HandlerFunc.AuthMiddleware).routes ++
      [⟨"GET", "/ping", [.Logger, .Recovery, .Ping]⟩,
       ⟨"GET", "/", [.Logger, .Recovery, .Welcome]⟩] := by
  refine ⟨by decide, by decide, by decide, by decide⟩

end MuchToDo
